import Mathlib

/-!
Verification of the pending-approval registry in
app/scripts/controllers/approval.js (the final, ObservableStore-backed
variant of the ApprovalController class, file lines 404-748).

The controller state is embedded as three explicit structures mirroring
the JavaScript instance fields:
  - approvals : the primary Map from id to the promise callbacks of the
    pending approval (callbacks are modelled as an opaque handle, a Nat
    allocated from a counter; the counter stands in for promise identity);
  - origins : the two-level origin index, an insertion-ordered association
    list from origin to the insertion-ordered list of types pending for
    that origin (a JS object whose keys map to true);
  - store : the externally observable projection (the ObservableStore
    state under the key pendingApprovals), an insertion-ordered
    association list from id to the published ApprovalInfo snapshot.

JavaScript exceptions are modelled by returning the state at the moment
of the throw together with the error, so a theorem of the form
"error implies the state equals the input state" genuinely reflects the
position of the throw relative to the mutations in the source.
-/

namespace ApprovalController

/-- Model of a JavaScript value, as far as the controller inspects one:
the requestData argument is checked for truthiness, typeof and
Array.isArray, and resolve and reject carry arbitrary caller values. -/
inductive JsValue where
  | undef
  | null
  | bool (b : Bool)
  | num (n : Int)
  | str (s : String)
  | arr (elems : List JsValue)
  | obj (fields : List (String × JsValue))

/-- Truthiness of a JavaScript value (the `if (requestData)` checks). -/
def JsValue.truthy : JsValue → Bool
  | .undef => false
  | .null => false
  | .bool b => b
  | .num n => decide (n ≠ 0)
  | .str s => decide (s ≠ "")
  | .arr _ => true
  | .obj _ => true

/-- Whether `typeof v === 'object'` holds (true for objects, arrays and
null in JavaScript). -/
def JsValue.typeofObject : JsValue → Bool
  | .null => true
  | .arr _ => true
  | .obj _ => true
  | _ => false

/-- The `Array.isArray` check. -/
def JsValue.isArray : JsValue → Bool
  | .arr _ => true
  | _ => false

/-- The type key of a pending approval: either the module-private
DEFAULT_TYPE symbol or a caller-supplied string.  The symbol can never
collide with a string (source line 408 and design note on the sentinel). -/
inductive ApprovalType where
  | default
  | custom (t : String)
deriving DecidableEq

/-- Resolution of the optional type argument, as done by the default
parameter `type = DEFAULT_TYPE` of _add (line 582) and of has (line 524). -/
def resolveType : Option String → ApprovalType
  | none => ApprovalType.default
  | some t => ApprovalType.custom t

/-- Truthiness of a possibly-undefined string argument (the `if (id)` and
`!origin` style checks). -/
def truthyStr : Option String → Bool
  | none => false
  | some s => decide (s ≠ "")

/-- Falsiness of a resolved type: the DEFAULT_TYPE symbol is truthy, a
string is falsy exactly when empty (the `!type` checks). -/
def falsyType : ApprovalType → Bool
  | ApprovalType.default => false
  | ApprovalType.custom t => decide (t = "")

/-- A single-quote character, used to build the exact error messages of
the source. -/
def sq : Char := '\x27'

/-- The source wraps interpolated values in single quotes. -/
def quoted (s : String) : String := String.singleton sq ++ s ++ String.singleton sq

/-- Errors thrown by the controller: ethErrors.rpc.internal,
ethErrors.rpc.resourceUnavailable, and plain `new Error`. -/
inductive JsError where
  | internal (msg : String)
  | resourceUnavailable (msg : String)
  | error (msg : String)
deriving DecidableEq

/-- The projection snapshot published for one pending approval
(built by _addToStore, lines 657-673).  The source stores the id inside
the snapshot; `type` is absent (none) when it is the DEFAULT_TYPE
sentinel, `requestData` is absent when the argument was falsy. -/
structure ApprovalInfo where
  id : String
  origin : String
  type : Option String
  requestData : Option JsValue

/-- The resolved type of a stored snapshot: the destructuring
`{ origin, type = DEFAULT_TYPE } = state[id] || {}` of _delete (line 695). -/
def storeType (info : ApprovalInfo) : ApprovalType := resolveType info.type

/-- Outcome delivered to a settlement handle by resolve or reject. -/
inductive Outcome where
  | resolved (value : JsValue)
  | rejected (error : JsValue)

/-- Association-list lookup with string keys, modelling Map.get and
JS object property access (first occurrence wins; keys are unique in
every state the controller builds). -/
def alookup {α : Type} : List (String × α) → String → Option α
  | [], _ => none
  | (k', v) :: rest, k => if k' = k then some v else alookup rest k

/-- Keys of an association list, in order. -/
def akeys {α : Type} (l : List (String × α)) : List String := l.map Prod.fst

/-- Key deletion, modelling Map.delete and the `delete obj[k]` operator. -/
def aerase {α : Type} (l : List (String × α)) (k : String) : List (String × α) :=
  l.filter (fun p => decide (p.1 ≠ k))

/-- Key insertion, modelling Map.set and `{ ...state, [id]: info }`:
an existing key keeps its position and receives the new value, a fresh
key is appended. -/
def aset {α : Type} (l : List (String × α)) (k : String) (v : α) : List (String × α) :=
  if (alookup l k).isSome then
    l.map (fun p => if p.1 = k then (k, v) else p)
  else
    l ++ [(k, v)]

/-- Update of the value at one key, leaving other entries alone
(`this._origins[origin][type] = true` and `delete this._origins[origin]?.[type]`
touch only the bucket of one origin). -/
def mapVal {α : Type} (l : List (String × α)) (k : String) (f : α → α) : List (String × α) :=
  l.map (fun p => if p.1 = k then (p.1, f p.2) else p)

/-- Membership test in a type bucket (`this._origins[origin]?.[type]`
truthiness: present keys map to true). -/
def bucketHas (b : List ApprovalType) (t : ApprovalType) : Bool :=
  b.any (fun u => decide (u = t))

/-- Adding a key to a type bucket (`this._origins[origin][type] = true`):
an existing key is untouched, a fresh key is appended. -/
def bucketAdd (b : List ApprovalType) (t : ApprovalType) : List ApprovalType :=
  if bucketHas b t then b else b ++ [t]

/-- The state of one ApprovalController instance.  nextHandle is the
allocation counter for settlement handles (promise identities). -/
structure State where
  approvals : List (String × Nat)
  origins : List (String × List ApprovalType)
  store : List (String × ApprovalInfo)
  nextHandle : Nat

/-- The state after the constructor (lines 439-451): empty Map, empty
origin index, empty store. -/
def initState : State :=
  { approvals := [], origins := [], store := [], nextHandle := 0 }

/-- Presence of an (origin, type) pair in the origin index
(`Boolean(this._origins[origin]?.[type])`). -/
def hasPair (origins : List (String × List ApprovalType)) (o : String) (t : ApprovalType) : Bool :=
  match alookup origins o with
  | none => false
  | some b => bucketHas b t

/-- The collision message builder of lines 411-413. -/
def getAlreadyPendingMessage (origin : String) (type : ApprovalType) : String :=
  "Request " ++
    (match type with
     | ApprovalType.default => ""
     | ApprovalType.custom t => "of type " ++ quoted t ++ " ") ++
    "already pending for origin " ++ origin ++ ". Please wait."

/-- _validateAddParams (lines 609-628).  The id argument has already been
defaulted by _add, so it is never undefined and the first check
`!id && id !== undefined` reduces to emptiness of the string.  Returns
the first error message, or none when validation passes. -/
def _validateAddParams (s : State) (id : String) (origin : Option String)
    (type : ApprovalType) (requestData : Option JsValue) : Option String :=
  if id = "" then some "May not specify falsy id."
  else if truthyStr origin = false then some "Must specify origin."
  else if (alookup s.approvals id).isSome then
    some ("Approval with id " ++ quoted id ++ " already exists.")
  else if falsyType type then some "May not specify falsy type."
  else
    match requestData with
    | some rd =>
      if rd.truthy && (!rd.typeofObject || rd.isArray) then
        some "Request data must be a plain object if specified."
      else none
    | none => none

/-- _addPendingApprovalOrigin (lines 639-644): create the bucket when
missing, then set the type key. -/
def _addPendingApprovalOrigin (origins : List (String × List ApprovalType))
    (origin : String) (type : ApprovalType) : List (String × List ApprovalType) :=
  let o1 := if (alookup origins origin).isSome then origins else origins ++ [(origin, [])]
  mapVal o1 origin (fun b => bucketAdd b type)

/-- The snapshot object built by _addToStore (lines 658-665): the id and
origin always, the type only when it is not the sentinel, the requestData
only when truthy. -/
def buildInfo (id origin : String) (type : ApprovalType) (requestData : Option JsValue) :
    ApprovalInfo :=
  { id := id
    origin := origin
    type := match type with
      | ApprovalType.default => none
      | ApprovalType.custom t => some t
    requestData := match requestData with
      | some rd => if rd.truthy then some rd else none
      | none => none }

/-- _addToStore (lines 657-673): build the snapshot and publish it under
the id. -/
def _addToStore (store : List (String × ApprovalInfo)) (id origin : String)
    (type : ApprovalType) (requestData : Option JsValue) : List (String × ApprovalInfo) :=
  aset store id (buildInfo id origin type requestData)

/-- _add (lines 582-597): dispatch on the defaulted arguments, validate,
check the origin/type collision, then perform the three insertions inside
the promise executor and return the fresh settlement handle.  genId is
the string the identifier generator (nanoid) would produce for this call. -/
def _add (s : State) (idArg : Option String) (originArg : Option String)
    (typeArg : Option String) (requestData : Option JsValue) (genId : String) :
    State × Except JsError Nat :=
  let id := idArg.getD genId
  let type := resolveType typeArg
  match _validateAddParams s id originArg type requestData with
  | some msg => (s, Except.error (JsError.internal msg))
  | none =>
    let origin := originArg.getD ""
    if hasPair s.origins origin type then
      (s, Except.error (JsError.resourceUnavailable (getAlreadyPendingMessage origin type)))
    else
      let h := s.nextHandle
      ({ approvals := aset s.approvals id h
         origins := _addPendingApprovalOrigin s.origins origin type
         store := _addToStore s.store id origin type requestData
         nextHandle := h + 1 }, Except.ok h)

/-- add (lines 495-497): a thin wrapper forwarding the options bag
to _add and returning the approval promise. -/
def add (s : State) (idArg originArg typeArg : Option String)
    (requestData : Option JsValue) (genId : String) : State × Except JsError Nat :=
  _add s idArg originArg typeArg requestData genId

/-- get (lines 506-511): permissive lookup into the store projection.
The source returns a shallow copy `{ ...info }`; copying is the identity
in a pure model. -/
def get (s : State) (id : String) : Option ApprovalInfo :=
  alookup s.store id

/-- has (lines 524-535): falsy-type guard, then lookup by id in the
primary map when the id argument is truthy, else by (origin, type) in
the origin index when the origin argument is truthy, else an error. -/
def has (s : State) (idArg originArg typeArg : Option String) : Except JsError Bool :=
  let type := resolveType typeArg
  if falsyType type then Except.error (JsError.error "May not specify falsy type.")
  else if truthyStr idArg then Except.ok (alookup s.approvals (idArg.getD "")).isSome
  else if truthyStr originArg then Except.ok (hasPair s.origins (originArg.getD "") type)
  else Except.error (JsError.error "Must specify id or origin.")

/-- _isEmptyOrigin (lines 739-747): the bucket is absent, or it holds
neither the DEFAULT_TYPE symbol key nor any string key (Object.keys does
not enumerate symbol keys, hence the separate symbol check). -/
def _isEmptyOrigin (origins : List (String × List ApprovalType)) (origin : String) : Bool :=
  match alookup origins origin with
  | none => true
  | some b =>
    !(bucketHas b ApprovalType.default) &&
      (b.filterMap (fun t => match t with
        | ApprovalType.default => none
        | ApprovalType.custom u => some u)).isEmpty

/-- The origin-index part of _delete (lines 698-701):
`delete this._origins[origin]?.[type]` followed by removal of the origin
key when its bucket became empty. -/
def deleteOriginPair (origins : List (String × List ApprovalType))
    (origin : String) (type : ApprovalType) : List (String × List ApprovalType) :=
  let o1 := mapVal origins origin (fun b => b.filter (fun u => decide (u ≠ type)))
  if _isEmptyOrigin o1 origin then aerase o1 origin else o1

/-- _delete (lines 684-709): throw on a falsy id; when the id is pending,
remove it from the primary map, look its origin and type up in the store
snapshot, delete that pair from the origin index, drop the origin bucket
if it became empty, and finally remove the store entry.  When the store
snapshot is missing (unreachable from the public operations) the origin
lookup finds nothing and the index is left alone. -/
def _delete (s : State) (id : String) : State × Except JsError Unit :=
  if id = "" then (s, Except.error (JsError.error "Expected id to be specified."))
  else if (alookup s.approvals id).isSome then
    let approvals := aerase s.approvals id
    let origins :=
      match alookup s.store id with
      | some info => deleteOriginPair s.origins info.origin (storeType info)
      | none => s.origins
    ({ s with approvals := approvals, origins := origins, store := aerase s.store id },
     Except.ok ())
  else (s, Except.ok ())

/-- _deleteApprovalAndGetCallbacks (lines 721-728): not-found guard,
fetch the callbacks handle, delete, return the handle. -/
def _deleteApprovalAndGetCallbacks (s : State) (id : String) : State × Except JsError Nat :=
  match alookup s.approvals id with
  | none => (s, Except.error (JsError.error ("Approval with id " ++ quoted id ++ " not found.")))
  | some h =>
    match _delete s id with
    | (s1, Except.ok _) => (s1, Except.ok h)
    | (s1, Except.error e) => (s1, Except.error e)

/-- resolve (lines 544-546): delete and fulfill the handle with the value. -/
def resolve (s : State) (id : String) (value : JsValue) :
    State × Except JsError (Nat × Outcome) :=
  match _deleteApprovalAndGetCallbacks s id with
  | (s1, Except.ok h) => (s1, Except.ok (h, Outcome.resolved value))
  | (s1, Except.error e) => (s1, Except.error e)

/-- reject (lines 555-557): delete and fail the handle with the error. -/
def reject (s : State) (id : String) (error : JsValue) :
    State × Except JsError (Nat × Outcome) :=
  match _deleteApprovalAndGetCallbacks s id with
  | (s1, Except.ok h) => (s1, Except.ok (h, Outcome.rejected error))
  | (s1, Except.error e) => (s1, Except.error e)

/-- The loop of clear (lines 563-565): reject every currently pending id
with no value (undefined); an exception aborts the loop and propagates. -/
def clearLoop : State → List String → State × Except JsError (List (Nat × Outcome))
  | s, [] => (s, Except.ok [])
  | s, id :: rest =>
    match reject s id JsValue.undef with
    | (s1, Except.ok ev) =>
      match clearLoop s1 rest with
      | (s2, Except.ok evs) => (s2, Except.ok (ev :: evs))
      | (s2, Except.error e) => (s2, Except.error e)
    | (s1, Except.error e) => (s1, Except.error e)

/-- clear (lines 562-568): reject every pending id (the Map iterator
visits every key because each rejection removes only its own entry),
then reset the origin index and the store projection. -/
def clear (s : State) : State × Except JsError (List (Nat × Outcome)) :=
  match clearLoop s (akeys s.approvals) with
  | (s1, Except.ok evs) => ({ s1 with origins := [], store := [] }, Except.ok evs)
  | (s1, Except.error e) => (s1, Except.error e)

/-- States reachable from a fresh controller through the public mutating
operations (get and has do not mutate; addAndShowApprovalRequest has the
same state effect as add). -/
inductive Reachable : State → Prop where
  | init : Reachable initState
  | step_add (s : State) (idArg originArg typeArg : Option String)
      (rd : Option JsValue) (genId : String) (hs : Reachable s) :
      Reachable (_add s idArg originArg typeArg rd genId).1
  | step_resolve (s : State) (id : String) (v : JsValue) (hs : Reachable s) :
      Reachable (resolve s id v).1
  | step_reject (s : State) (id : String) (e : JsValue) (hs : Reachable s) :
      Reachable (reject s id e).1
  | step_clear (s : State) (hs : Reachable s) :
      Reachable (clear s).1

/-- Number of store entries carrying a given (origin, type) pair. -/
def countPending (s : State) (o : String) (t : ApprovalType) : Nat :=
  (s.store.filter (fun p => decide (p.2.origin = o) && decide (storeType p.2 = t))).length

/-! Basic lemmas about the association-list operations. -/

theorem alookup_eq_none_iff {α : Type} (l : List (String × α)) (k : String) :
    alookup l k = none ↔ k ∉ akeys l := by
  induction l with
  | nil => simp [alookup, akeys]
  | cons p rest ih =>
    obtain ⟨k', v⟩ := p
    by_cases h : k' = k
    · subst h
      simp [alookup, akeys]
    · simp only [alookup, akeys, List.map_cons, List.mem_cons, if_neg h]
      rw [ih]
      simp only [akeys]
      constructor
      · intro hn hc
        rcases hc with hc | hc
        · exact h hc.symm
        · exact hn hc
      · intro hn hc
        exact hn (Or.inr hc)

theorem alookup_isSome_iff {α : Type} (l : List (String × α)) (k : String) :
    (alookup l k).isSome = true ↔ k ∈ akeys l := by
  rcases hl : alookup l k with _ | v
  · simp only [Option.isSome_none]
    rw [alookup_eq_none_iff] at hl
    simp [hl]
  · simp only [Option.isSome_some, true_iff]
    by_contra hk
    rw [← alookup_eq_none_iff] at hk
    rw [hk] at hl
    exact Option.noConfusion hl

theorem mem_of_alookup_eq_some {α : Type} {l : List (String × α)} {k : String} {v : α}
    (h : alookup l k = some v) : (k, v) ∈ l := by
  induction l with
  | nil => exact Option.noConfusion h
  | cons p rest ih =>
    obtain ⟨k', v'⟩ := p
    by_cases hk : k' = k
    · subst hk
      simp only [alookup, if_pos rfl] at h
      cases h
      exact List.mem_cons_self _ _
    · simp only [alookup, if_neg hk] at h
      exact List.mem_cons_of_mem _ (ih h)

theorem alookup_eq_some_of_mem_nodup {α : Type} {l : List (String × α)} {k : String} {v : α}
    (hn : (akeys l).Nodup) (h : (k, v) ∈ l) : alookup l k = some v := by
  induction l with
  | nil => exact absurd h (List.not_mem_nil _)
  | cons p rest ih =>
    obtain ⟨k', v'⟩ := p
    simp only [akeys, List.map_cons, List.nodup_cons] at hn
    rcases List.mem_cons.mp h with h1 | h1
    · cases h1
      simp [alookup]
    · have hk : k' ≠ k := by
        intro he
        subst he
        exact hn.1 (List.mem_map.mpr ⟨(k', v), h1, rfl⟩)
      simp only [alookup, if_neg hk]
      exact ih hn.2 h1

theorem entry_eq_of_mem_nodup {α : Type} {l : List (String × α)} {p q : String × α}
    (hn : (akeys l).Nodup) (hp : p ∈ l) (hq : q ∈ l) (hk : p.1 = q.1) : p = q := by
  obtain ⟨kp, vp⟩ := p
  obtain ⟨kq, vq⟩ := q
  simp only at hk
  subst hk
  have h1 := alookup_eq_some_of_mem_nodup hn hp
  have h2 := alookup_eq_some_of_mem_nodup hn hq
  rw [h1] at h2
  cases h2
  rfl

theorem alookup_append_of_eq_none {α : Type} {l1 : List (String × α)} (l2 : List (String × α))
    {k : String} (h : alookup l1 k = none) : alookup (l1 ++ l2) k = alookup l2 k := by
  induction l1 with
  | nil => rfl
  | cons p rest ih =>
    obtain ⟨k', v⟩ := p
    by_cases hk : k' = k
    · simp [alookup, if_pos hk] at h
    · simp only [alookup, if_neg hk] at h ⊢
      exact ih h

theorem alookup_append_of_eq_some {α : Type} {l1 : List (String × α)} (l2 : List (String × α))
    {k : String} {v : α} (h : alookup l1 k = some v) : alookup (l1 ++ l2) k = some v := by
  induction l1 with
  | nil => exact Option.noConfusion h
  | cons p rest ih =>
    obtain ⟨k', v'⟩ := p
    by_cases hk : k' = k
    · simp only [alookup, if_pos hk] at h ⊢
      exact h
    · simp only [alookup, if_neg hk] at h ⊢
      exact ih h

theorem alookup_aerase_self {α : Type} (l : List (String × α)) (k : String) :
    alookup (aerase l k) k = none := by
  induction l with
  | nil => rfl
  | cons p rest ih =>
    obtain ⟨k', v⟩ := p
    by_cases hk : k' = k
    · subst hk
      simpa [aerase] using ih
    · simpa [aerase, alookup, hk] using ih

theorem alookup_aerase_of_ne {α : Type} (l : List (String × α)) {k k' : String}
    (h : k' ≠ k) : alookup (aerase l k) k' = alookup l k' := by
  induction l with
  | nil => rfl
  | cons p rest ih =>
    obtain ⟨k0, v⟩ := p
    by_cases hk : k0 = k
    · subst hk
      have hne : ¬ k0 = k' := fun he => h (he ▸ rfl)
      simpa [aerase, alookup, hne] using ih
    · by_cases hk' : k0 = k'
      · subst hk'
        simp [aerase, alookup, hk]
      · simpa [aerase, alookup, hk, hk'] using ih

theorem mem_aerase {α : Type} {l : List (String × α)} {k : String} {p : String × α} :
    p ∈ aerase l k ↔ p ∈ l ∧ p.1 ≠ k := by
  simp [aerase, List.mem_filter]

theorem aerase_sublist {α : Type} (l : List (String × α)) (k : String) :
    (aerase l k).Sublist l := List.filter_sublist l

theorem akeys_nodup_aerase {α : Type} {l : List (String × α)} (k : String)
    (hn : (akeys l).Nodup) : (akeys (aerase l k)).Nodup :=
  List.Nodup.sublist (List.Sublist.map Prod.fst (aerase_sublist l k)) hn

theorem aerase_of_not_mem {α : Type} {l : List (String × α)} {k : String}
    (h : k ∉ akeys l) : aerase l k = l := by
  induction l with
  | nil => rfl
  | cons p rest ih =>
    obtain ⟨k', v⟩ := p
    simp only [akeys, List.map_cons, List.mem_cons] at h
    push_neg at h
    have hk : k' ≠ k := fun he => h.1 (he ▸ rfl)
    simp only [aerase, List.filter_cons, decide_eq_true_eq]
    rw [if_pos hk]
    have : aerase rest k = rest := ih h.2
    simpa [aerase] using this

theorem aset_of_eq_none {α : Type} {l : List (String × α)} {k : String} (v : α)
    (h : alookup l k = none) : aset l k v = l ++ [(k, v)] := by
  simp [aset, h]

theorem alookup_map_replace_self {α : Type} {l : List (String × α)} {k : String} {w : α}
    (v : α) (hl : alookup l k = some w) :
    alookup (l.map (fun p => if p.1 = k then (k, v) else p)) k = some v := by
  induction l with
  | nil => exact Option.noConfusion hl
  | cons p rest ih =>
    obtain ⟨k0, v0⟩ := p
    simp only [List.map_cons]
    by_cases hk : k0 = k
    · subst hk
      rw [show (if ((k0, v0) : String × α).1 = k0 then (k0, v) else (k0, v0)) = (k0, v) from if_pos rfl]
      simp [alookup]
    · simp only [alookup, if_neg hk] at hl
      rw [show (if ((k0, v0) : String × α).1 = k then (k, v) else (k0, v0)) = (k0, v0) from if_neg hk]
      simp only [alookup, if_neg hk]
      exact ih hl

theorem alookup_aset_self {α : Type} (l : List (String × α)) (k : String) (v : α) :
    alookup (aset l k v) k = some v := by
  rcases hl : alookup l k with _ | w
  · rw [aset_of_eq_none v hl]
    rw [alookup_append_of_eq_none _ hl]
    simp [alookup]
  · have hs : (alookup l k).isSome = true := by rw [hl]; rfl
    simp only [aset, if_pos hs]
    exact alookup_map_replace_self v hl

theorem alookup_map_replace_of_ne {α : Type} (l : List (String × α)) {k k' : String} (v : α)
    (h : k' ≠ k) :
    alookup (l.map (fun p => if p.1 = k then (k, v) else p)) k' = alookup l k' := by
  induction l with
  | nil => rfl
  | cons p rest ih =>
    obtain ⟨k0, v0⟩ := p
    simp only [List.map_cons]
    by_cases hk : k0 = k
    · subst hk
      have hne : ¬ k0 = k' := fun he => h (he ▸ rfl)
      rw [show (if ((k0, v0) : String × α).1 = k0 then (k0, v) else (k0, v0)) = (k0, v) from if_pos rfl]
      simp only [alookup, if_neg hne]
      exact ih
    · rw [show (if ((k0, v0) : String × α).1 = k then (k, v) else (k0, v0)) = (k0, v0) from if_neg hk]
      by_cases hk' : k0 = k'
      · subst hk'
        simp [alookup]
      · simp only [alookup, if_neg hk']
        exact ih

theorem alookup_aset_of_ne {α : Type} (l : List (String × α)) {k k' : String} (v : α)
    (h : k' ≠ k) : alookup (aset l k v) k' = alookup l k' := by
  by_cases hs : (alookup l k).isSome
  · simp only [aset, if_pos hs]
    exact alookup_map_replace_of_ne l v h
  · simp only [aset, if_neg hs]
    rcases hl : alookup l k' with _ | w
    · rw [alookup_append_of_eq_none _ hl]
      simp [alookup, Ne.symm h]
    · rw [alookup_append_of_eq_some _ hl]

theorem akeys_aset_of_eq_none {α : Type} {l : List (String × α)} {k : String} (v : α)
    (h : alookup l k = none) : akeys (aset l k v) = akeys l ++ [k] := by
  rw [aset_of_eq_none v h]
  simp [akeys]

theorem akeys_append_single {α : Type} (l : List (String × α)) (k : String) (v : α) :
    akeys (l ++ [(k, v)]) = akeys l ++ [k] := by
  simp [akeys]

theorem alookup_append_single_self {α : Type} {l : List (String × α)} {k : String} (v : α)
    (h : alookup l k = none) : alookup (l ++ [(k, v)]) k = some v := by
  rw [alookup_append_of_eq_none _ h]
  simp [alookup]

theorem alookup_append_single_of_ne {α : Type} (l : List (String × α)) {k k' : String} (v : α)
    (h : k' ≠ k) : alookup (l ++ [(k, v)]) k' = alookup l k' := by
  rcases hl : alookup l k' with _ | w
  · rw [alookup_append_of_eq_none _ hl]
    simp [alookup, Ne.symm h]
  · rw [alookup_append_of_eq_some _ hl]

/-! Lemmas about mapVal (single-bucket updates of the origin index). -/

theorem alookup_mapVal_self {α : Type} (l : List (String × α)) (k : String) (f : α → α) :
    alookup (mapVal l k f) k = (alookup l k).map f := by
  induction l with
  | nil => rfl
  | cons p rest ih =>
    obtain ⟨k0, v0⟩ := p
    simp only [mapVal, List.map_cons]
    by_cases hk : k0 = k
    · subst hk
      rw [show (if ((k0, v0) : String × α).1 = k0 then (k0, f v0) else (k0, v0)) = (k0, f v0)
          from if_pos rfl]
      simp [alookup]
    · rw [show (if ((k0, v0) : String × α).1 = k then (k0, f v0) else (k0, v0)) = (k0, v0)
          from if_neg hk]
      simp only [alookup, if_neg hk]
      exact ih

theorem alookup_mapVal_of_ne {α : Type} (l : List (String × α)) {k k' : String} (f : α → α)
    (h : k' ≠ k) : alookup (mapVal l k f) k' = alookup l k' := by
  induction l with
  | nil => rfl
  | cons p rest ih =>
    obtain ⟨k0, v0⟩ := p
    simp only [mapVal, List.map_cons]
    by_cases hk : k0 = k
    · subst hk
      have hne : ¬ k0 = k' := fun he => h (he ▸ rfl)
      rw [show (if ((k0, v0) : String × α).1 = k0 then (k0, f v0) else (k0, v0)) = (k0, f v0)
          from if_pos rfl]
      simp only [alookup, if_neg hne]
      exact ih
    · rw [show (if ((k0, v0) : String × α).1 = k then (k0, f v0) else (k0, v0)) = (k0, v0)
          from if_neg hk]
      by_cases hk' : k0 = k'
      · subst hk'
        simp [alookup]
      · simp only [alookup, if_neg hk']
        exact ih

theorem akeys_mapVal {α : Type} (l : List (String × α)) (k : String) (f : α → α) :
    akeys (mapVal l k f) = akeys l := by
  unfold akeys mapVal
  rw [List.map_map]
  apply List.map_congr_left
  intro p _
  by_cases hk : p.1 = k <;> simp [hk]

/-! Lemmas about type buckets. -/

theorem bucketHas_iff (b : List ApprovalType) (t : ApprovalType) :
    bucketHas b t = true ↔ t ∈ b := by
  simp [bucketHas]

theorem mem_bucketAdd {b : List ApprovalType} {t u : ApprovalType} :
    u ∈ bucketAdd b t ↔ u ∈ b ∨ u = t := by
  unfold bucketAdd
  by_cases h : bucketHas b t = true
  · rw [if_pos h]
    constructor
    · exact Or.inl
    · rintro (hu | hu)
      · exact hu
      · exact hu ▸ (bucketHas_iff b t).mp h
  · rw [if_neg h]
    simp [List.mem_append]

theorem nodup_bucketAdd {b : List ApprovalType} (t : ApprovalType) (hn : b.Nodup) :
    (bucketAdd b t).Nodup := by
  unfold bucketAdd
  by_cases h : bucketHas b t = true
  · rw [if_pos h]
    exact hn
  · rw [if_neg h]
    have ht : t ∉ b := fun hm => h ((bucketHas_iff b t).mpr hm)
    simp [List.nodup_append, hn, ht]

theorem bucketAdd_ne_nil (b : List ApprovalType) (t : ApprovalType) : bucketAdd b t ≠ [] := by
  unfold bucketAdd
  by_cases h : bucketHas b t = true
  · rw [if_pos h]
    intro he
    subst he
    simp [bucketHas] at h
  · rw [if_neg h]
    simp

/-! Lemmas about the origin index. -/

theorem hasPair_iff (origins : List (String × List ApprovalType)) (o : String)
    (t : ApprovalType) :
    hasPair origins o t = true ↔ ∃ b, alookup origins o = some b ∧ t ∈ b := by
  unfold hasPair
  rcases h : alookup origins o with _ | b
  · simp
  · simp [bucketHas_iff]

theorem alookup_addPair_self (origins : List (String × List ApprovalType)) (o : String)
    (t : ApprovalType) :
    alookup (_addPendingApprovalOrigin origins o t) o =
      some (bucketAdd ((alookup origins o).getD []) t) := by
  unfold _addPendingApprovalOrigin
  rcases h : alookup origins o with _ | b
  · have h1 : alookup (origins ++ [(o, [])]) o = some [] := alookup_append_single_self [] h
    simp only [Option.isSome_none]
    rw [if_neg (by decide : ¬ (false = true))]
    rw [alookup_mapVal_self, h1]
    rfl
  · simp only [Option.isSome_some]
    rw [if_pos trivial]
    rw [alookup_mapVal_self, h]
    rfl

theorem alookup_addPair_of_ne (origins : List (String × List ApprovalType)) {o o' : String}
    (t : ApprovalType) (h : o' ≠ o) :
    alookup (_addPendingApprovalOrigin origins o t) o' = alookup origins o' := by
  unfold _addPendingApprovalOrigin
  by_cases hs : (alookup origins o).isSome = true
  · simp only [if_pos hs]
    exact alookup_mapVal_of_ne _ _ h
  · simp only [if_neg hs]
    rw [alookup_mapVal_of_ne _ _ h]
    exact alookup_append_single_of_ne _ [] h

theorem hasPair_addPair (origins : List (String × List ApprovalType)) (o : String)
    (t : ApprovalType) (o' : String) (t' : ApprovalType) :
    hasPair (_addPendingApprovalOrigin origins o t) o' t' = true ↔
      (hasPair origins o' t' = true ∨ (o' = o ∧ t' = t)) := by
  by_cases ho : o' = o
  · subst ho
    rw [hasPair_iff]
    constructor
    · rintro ⟨b, hb, ht⟩
      rw [alookup_addPair_self] at hb
      cases hb
      rcases mem_bucketAdd.mp ht with hu | hu
      · left
        rw [hasPair_iff]
        rcases hl : alookup origins o' with _ | b0
        · rw [hl] at hu
          exact absurd hu (List.not_mem_nil _)
        · rw [hl] at hu
          exact ⟨b0, rfl, hu⟩
      · exact Or.inr ⟨rfl, hu⟩
    · intro hc
      refine ⟨bucketAdd ((alookup origins o').getD []) t, alookup_addPair_self origins o' t, ?_⟩
      rcases hc with hp | ⟨_, ht⟩
      · rw [hasPair_iff] at hp
        obtain ⟨b, hb, ht⟩ := hp
        rw [hb]
        exact mem_bucketAdd.mpr (Or.inl ht)
      · exact mem_bucketAdd.mpr (Or.inr ht)
  · rw [hasPair_iff, hasPair_iff]
    rw [alookup_addPair_of_ne origins t ho]
    constructor
    · intro hb
      exact Or.inl hb
    · rintro (hb | ⟨he, _⟩)
      · exact hb
      · exact absurd he ho

theorem akeys_addPair (origins : List (String × List ApprovalType)) (o : String)
    (t : ApprovalType) :
    akeys (_addPendingApprovalOrigin origins o t) =
      if (alookup origins o).isSome = true then akeys origins else akeys origins ++ [o] := by
  unfold _addPendingApprovalOrigin
  by_cases hs : (alookup origins o).isSome = true
  · simp only [if_pos hs]
    exact akeys_mapVal _ _ _
  · simp only [if_neg hs]
    rw [akeys_mapVal]
    exact akeys_append_single _ _ _

/-! Lemmas about deletion from the origin index. -/

theorem bucket_empty_check (b : List ApprovalType) :
    (!(bucketHas b ApprovalType.default) &&
      (b.filterMap (fun t => match t with
        | ApprovalType.default => none
        | ApprovalType.custom u => some u)).isEmpty) = true ↔ b = [] := by
  cases b with
  | nil => simp [bucketHas]
  | cons t rest =>
    cases t with
    | default => simp [bucketHas]
    | custom u => simp [bucketHas, List.filterMap_cons]

theorem _isEmptyOrigin_iff (origins : List (String × List ApprovalType)) (o : String) :
    _isEmptyOrigin origins o = true ↔
      (alookup origins o = none ∨ alookup origins o = some []) := by
  unfold _isEmptyOrigin
  rcases h : alookup origins o with _ | b
  · simp
  · rw [bucket_empty_check]
    simp

theorem hasPair_eq_false_of_empty {origins : List (String × List ApprovalType)} {o : String}
    (h : _isEmptyOrigin origins o = true) (t : ApprovalType) :
    hasPair origins o t = false := by
  rcases (_isEmptyOrigin_iff origins o).mp h with hl | hl
  · unfold hasPair
    rw [hl]
  · unfold hasPair
    rw [hl]
    rfl

theorem hasPair_filter_pair (origins : List (String × List ApprovalType)) (o : String)
    (t : ApprovalType) (o' : String) (t' : ApprovalType) :
    hasPair (mapVal origins o (fun b => b.filter (fun u => decide (u ≠ t)))) o' t' = true ↔
      (hasPair origins o' t' = true ∧ ¬(o' = o ∧ t' = t)) := by
  by_cases ho : o' = o
  · subst ho
    rw [hasPair_iff, hasPair_iff]
    constructor
    · rintro ⟨b, hb, ht⟩
      rw [alookup_mapVal_self] at hb
      rcases hl : alookup origins o' with _ | b0
      · rw [hl] at hb
        exact Option.noConfusion hb
      · rw [hl] at hb
        simp only [Option.map_some'] at hb
        cases hb
        have := List.mem_filter.mp ht
        refine ⟨⟨b0, rfl, this.1⟩, ?_⟩
        rintro ⟨_, hteq⟩
        subst hteq
        exact (decide_eq_true_eq.mp this.2) rfl
    · rintro ⟨⟨b, hb, ht⟩, hne⟩
      refine ⟨b.filter (fun u => decide (u ≠ t)), ?_, ?_⟩
      · rw [alookup_mapVal_self, hb]
        rfl
      · refine List.mem_filter.mpr ⟨ht, ?_⟩
        refine decide_eq_true ?_
        intro he
        exact hne ⟨rfl, he⟩
  · rw [hasPair_iff, hasPair_iff, alookup_mapVal_of_ne _ _ ho]
    constructor
    · intro hb
      exact ⟨hb, fun hc => ho hc.1⟩
    · rintro ⟨hb, _⟩
      exact hb

theorem hasPair_deleteOriginPair (origins : List (String × List ApprovalType)) (o : String)
    (t : ApprovalType) (o' : String) (t' : ApprovalType) :
    hasPair (deleteOriginPair origins o t) o' t' = true ↔
      (hasPair origins o' t' = true ∧ ¬(o' = o ∧ t' = t)) := by
  rw [← hasPair_filter_pair origins o t o' t']
  simp only [deleteOriginPair]
  by_cases he : _isEmptyOrigin (mapVal origins o (fun b => b.filter (fun u => decide (u ≠ t)))) o
      = true
  · rw [if_pos he]
    by_cases ho : o' = o
    · subst ho
      rw [hasPair_eq_false_of_empty he t']
      constructor
      · intro hc
        rw [hasPair_iff] at hc
        obtain ⟨b, hb, _⟩ := hc
        rw [alookup_aerase_self] at hb
        exact Option.noConfusion hb
      · intro hc
        exact absurd hc Bool.false_ne_true
    · rw [hasPair_iff, hasPair_iff, alookup_aerase_of_ne _ ho]
  · rw [if_neg he]

theorem eq_none_of_not_isSome {α : Type} {o : Option α} (h : ¬ o.isSome = true) : o = none := by
  cases o
  · rfl
  · simp at h

theorem nodup_snoc {l : List String} {k : String} (hn : l.Nodup) (hk : k ∉ l) :
    (l ++ [k]).Nodup := by
  simp [List.nodup_append, hn, hk]

/-- The snapshot type stored by _addToStore round-trips to the resolved
type: dropping the sentinel and re-defaulting it are inverse. -/
theorem storeType_build (id origin : String) (type : ApprovalType) (rd : Option JsValue) :
    storeType (buildInfo id origin type rd) = type := by
  cases type <;> rfl

theorem origin_build (id origin : String) (type : ApprovalType) (rd : Option JsValue) :
    (buildInfo id origin type rd).origin = origin := rfl

/-- The consistency invariant tying the three structures together: unique
keys everywhere, primary map and projection in lockstep, the origin index
exactly reflecting the (origin, type) pairs of the projection with no
duplicate pair and no empty bucket, and no falsy id registered. -/
structure WF (s : State) : Prop where
  nodupA : (akeys s.approvals).Nodup
  nodupS : (akeys s.store).Nodup
  nodupO : (akeys s.origins).Nodup
  nodupB : ∀ o b, alookup s.origins o = some b → b.Nodup
  noEmptyB : ∀ o b, alookup s.origins o = some b → b ≠ []
  sync : ∀ id, (alookup s.approvals id).isSome = (alookup s.store id).isSome
  index : ∀ o t, hasPair s.origins o t = true ↔
    ∃ p ∈ s.store, p.2.origin = o ∧ storeType p.2 = t
  uniq : ∀ p ∈ s.store, ∀ q ∈ s.store, p.2.origin = q.2.origin →
    storeType p.2 = storeType q.2 → p.1 = q.1
  noFalsyId : ∀ p ∈ s.approvals, p.1 ≠ ""

theorem wf_init : WF initState := by
  refine ⟨?_, ?_, ?_, ?_, ?_, ?_, ?_, ?_, ?_⟩ <;>
    simp [initState, akeys, alookup, hasPair]

/-- Facts extracted from a passing validation. -/
theorem validate_ok {s : State} {id : String} {origin : Option String} {type : ApprovalType}
    {rd : Option JsValue} (h : _validateAddParams s id origin type rd = none) :
    ¬ id = "" ∧ truthyStr origin = true ∧ ¬ ((alookup s.approvals id).isSome = true) ∧
      falsyType type = false := by
  unfold _validateAddParams at h
  by_cases h1 : id = ""
  · rw [if_pos h1] at h
    exact Option.noConfusion h
  rw [if_neg h1] at h
  by_cases h2 : truthyStr origin = false
  · rw [if_pos h2] at h
    exact Option.noConfusion h
  rw [if_neg h2] at h
  by_cases h3 : (alookup s.approvals id).isSome = true
  · rw [if_pos h3] at h
    exact Option.noConfusion h
  rw [if_neg h3] at h
  by_cases h4 : falsyType type = true
  · rw [if_pos h4] at h
    exact Option.noConfusion h
  rw [if_neg h4] at h
  refine ⟨h1, ?_, h3, ?_⟩
  · cases hb : truthyStr origin
    · exact absurd hb h2
    · rfl
  · cases hb : falsyType type
    · rfl
    · exact absurd hb h4

/-- The success branch of _add, in closed form. -/
theorem _add_success {s : State} {idArg originArg typeArg : Option String} {rd : Option JsValue}
    {genId : String}
    (hv : _validateAddParams s (idArg.getD genId) originArg (resolveType typeArg) rd = none)
    (hp : ¬ (hasPair s.origins (originArg.getD "") (resolveType typeArg) = true)) :
    _add s idArg originArg typeArg rd genId =
      ({ approvals := aset s.approvals (idArg.getD genId) s.nextHandle
         origins := _addPendingApprovalOrigin s.origins (originArg.getD "") (resolveType typeArg)
         store := _addToStore s.store (idArg.getD genId) (originArg.getD "")
           (resolveType typeArg) rd
         nextHandle := s.nextHandle + 1 }, Except.ok s.nextHandle) := by
  simp only [_add]
  rw [hv]
  simp only [if_neg hp]

/-- The error branches of _add, in closed form. -/
theorem _add_error_validate {s : State} {idArg originArg typeArg : Option String}
    {rd : Option JsValue} {genId : String} {msg : String}
    (hv : _validateAddParams s (idArg.getD genId) originArg (resolveType typeArg) rd = some msg) :
    _add s idArg originArg typeArg rd genId = (s, Except.error (JsError.internal msg)) := by
  simp only [_add]
  rw [hv]

theorem _add_error_collision {s : State} {idArg originArg typeArg : Option String}
    {rd : Option JsValue} {genId : String}
    (hv : _validateAddParams s (idArg.getD genId) originArg (resolveType typeArg) rd = none)
    (hp : hasPair s.origins (originArg.getD "") (resolveType typeArg) = true) :
    _add s idArg originArg typeArg rd genId =
      (s, Except.error (JsError.resourceUnavailable
        (getAlreadyPendingMessage (originArg.getD "") (resolveType typeArg)))) := by
  simp only [_add]
  rw [hv]
  simp only [if_pos hp]

theorem wf_add (s : State) (idArg originArg typeArg : Option String) (rd : Option JsValue)
    (genId : String) (hw : WF s) : WF (_add s idArg originArg typeArg rd genId).1 := by
  rcases hv : _validateAddParams s (idArg.getD genId) originArg (resolveType typeArg) rd
    with _ | msg
  case some =>
    rw [_add_error_validate hv]
    exact hw
  case none =>
  by_cases hp : hasPair s.origins (originArg.getD "") (resolveType typeArg) = true
  · rw [_add_error_collision hv hp]
    exact hw
  rw [_add_success hv hp]
  obtain ⟨hid, horig, hA', htype⟩ := validate_ok hv
  have hA : alookup s.approvals (idArg.getD genId) = none := eq_none_of_not_isSome hA'
  have hS : alookup s.store (idArg.getD genId) = none := by
    apply eq_none_of_not_isSome
    rw [← hw.sync]
    exact hA'
  have hidA : (idArg.getD genId) ∉ akeys s.approvals := (alookup_eq_none_iff _ _).mp hA
  have hidS : (idArg.getD genId) ∉ akeys s.store := (alookup_eq_none_iff _ _).mp hS
  have hsetA : aset s.approvals (idArg.getD genId) s.nextHandle =
      s.approvals ++ [(idArg.getD genId, s.nextHandle)] := aset_of_eq_none _ hA
  have hsetS : _addToStore s.store (idArg.getD genId) (originArg.getD "")
      (resolveType typeArg) rd = s.store ++
        [(idArg.getD genId,
          buildInfo (idArg.getD genId) (originArg.getD "") (resolveType typeArg) rd)] := by
    unfold _addToStore
    exact aset_of_eq_none _ hS
  constructor
  · -- nodupA
    rw [hsetA, akeys_append_single]
    exact nodup_snoc hw.nodupA hidA
  · -- nodupS
    rw [hsetS, akeys_append_single]
    exact nodup_snoc hw.nodupS hidS
  · -- nodupO
    rw [akeys_addPair]
    by_cases hs : (alookup s.origins (originArg.getD "")).isSome = true
    · rw [if_pos hs]
      exact hw.nodupO
    · rw [if_neg hs]
      exact nodup_snoc hw.nodupO
        ((alookup_eq_none_iff _ _).mp (eq_none_of_not_isSome hs))
  · -- nodupB
    intro o' b' hb'
    by_cases ho : o' = originArg.getD ""
    · rw [ho, alookup_addPair_self] at hb'
      rw [← Option.some_inj.mp hb']
      apply nodup_bucketAdd
      rcases hl : alookup s.origins (originArg.getD "") with _ | b0
      · simp
      · simpa using hw.nodupB _ b0 hl
    · rw [alookup_addPair_of_ne _ _ ho] at hb'
      exact hw.nodupB o' b' hb'
  · -- noEmptyB
    intro o' b' hb'
    by_cases ho : o' = originArg.getD ""
    · rw [ho, alookup_addPair_self] at hb'
      rw [← Option.some_inj.mp hb']
      exact bucketAdd_ne_nil _ _
    · rw [alookup_addPair_of_ne _ _ ho] at hb'
      exact hw.noEmptyB o' b' hb'
  · -- sync
    intro id'
    by_cases hi : id' = idArg.getD genId
    · subst hi
      rw [hsetA, hsetS, alookup_append_single_self _ hA, alookup_append_single_self _ hS]
      rfl
    · rw [hsetA, hsetS, alookup_append_single_of_ne _ _ hi, alookup_append_single_of_ne _ _ hi]
      exact hw.sync id'
  · -- index
    intro o' t'
    rw [hasPair_addPair]
    rw [hsetS]
    constructor
    · rintro (hop | ⟨ho, ht⟩)
      · obtain ⟨p, hpmem, hpo, hpt⟩ := (hw.index o' t').mp hop
        exact ⟨p, List.mem_append_left _ hpmem, hpo, hpt⟩
      · subst ho
        subst ht
        refine ⟨_, List.mem_append_right _ (List.mem_singleton_self _), rfl, ?_⟩
        exact storeType_build _ _ _ _
    · rintro ⟨p, hpmem, hpo, hpt⟩
      rcases List.mem_append.mp hpmem with hmem | hmem
      · exact Or.inl ((hw.index o' t').mpr ⟨p, hmem, hpo, hpt⟩)
      · right
        rw [List.mem_singleton] at hmem
        subst hmem
        refine ⟨hpo.symm, ?_⟩
        rw [← hpt]
        exact storeType_build (idArg.getD genId) (originArg.getD "")
          (resolveType typeArg) rd
  · -- uniq
    intro p hpmem q hqmem hpo hpt
    rw [hsetS] at hpmem hqmem
    rcases List.mem_append.mp hpmem with hp1 | hp1 <;>
      rcases List.mem_append.mp hqmem with hq1 | hq1
    · exact hw.uniq p hp1 q hq1 hpo hpt
    · rw [List.mem_singleton] at hq1
      subst hq1
      exfalso
      apply hp
      apply (hw.index (originArg.getD "") (resolveType typeArg)).mpr
      refine ⟨p, hp1, ?_, ?_⟩
      · rw [hpo]
        rfl
      · rw [hpt]
        exact storeType_build _ _ _ _
    · rw [List.mem_singleton] at hp1
      subst hp1
      exfalso
      apply hp
      apply (hw.index (originArg.getD "") (resolveType typeArg)).mpr
      refine ⟨q, hq1, ?_, ?_⟩
      · rw [← hpo]
        rfl
      · rw [← hpt]
        exact storeType_build _ _ _ _
    · rw [List.mem_singleton] at hp1 hq1
      subst hp1
      subst hq1
      rfl
  · -- noFalsyId
    intro p hpmem
    rw [hsetA] at hpmem
    rcases List.mem_append.mp hpmem with hmem | hmem
    · exact hw.noFalsyId p hmem
    · rw [List.mem_singleton] at hmem
      subst hmem
      exact hid

/-! Characterisation of _delete and preservation of the invariant. -/

/-- The state produced by deleting a live id whose snapshot is info. -/
def deleteState (s : State) (id : String) (info : ApprovalInfo) : State :=
  { s with approvals := aerase s.approvals id
           origins := deleteOriginPair s.origins info.origin (storeType info)
           store := aerase s.store id }

theorem aerase_cons_self {α : Type} (rest : List (String × α)) (k : String) (v : α) :
    aerase ((k, v) :: rest) k = aerase rest k := by
  simp [aerase, List.filter_cons]

theorem _delete_falsy (s : State) :
    _delete s "" = (s, Except.error (JsError.error "Expected id to be specified.")) := rfl

theorem _delete_live {s : State} {id : String} {info : ApprovalInfo}
    (hid : ¬ id = "") (hA : (alookup s.approvals id).isSome = true)
    (hS : alookup s.store id = some info) :
    _delete s id = (deleteState s id info, Except.ok ()) := by
  simp only [_delete]
  rw [if_neg hid, if_pos hA, hS]
  rfl

theorem _delete_missing {s : State} {id : String} (hid : ¬ id = "")
    (hA : alookup s.approvals id = none) : _delete s id = (s, Except.ok ()) := by
  have hA' : ¬ ((alookup s.approvals id).isSome = true) := by rw [hA]; simp
  simp only [_delete]
  rw [if_neg hid, if_neg hA']

theorem alookup_deleteOriginPair_of_ne (O : List (String × List ApprovalType)) {o o' : String}
    (t : ApprovalType) (h : o' ≠ o) :
    alookup (deleteOriginPair O o t) o' = alookup O o' := by
  simp only [deleteOriginPair]
  by_cases he : _isEmptyOrigin (mapVal O o (fun b => b.filter (fun u => decide (u ≠ t)))) o = true
  · rw [if_pos he, alookup_aerase_of_ne _ h, alookup_mapVal_of_ne _ _ h]
  · rw [if_neg he, alookup_mapVal_of_ne _ _ h]

theorem deleteOriginPair_cases {O : List (String × List ApprovalType)} {o : String}
    {t : ApprovalType} {o' : String} {b' : List ApprovalType}
    (h : alookup (deleteOriginPair O o t) o' = some b') :
    (o' ≠ o ∧ alookup O o' = some b') ∨
      (o' = o ∧ b' ≠ [] ∧ ∃ b, alookup O o = some b ∧
        b' = b.filter (fun u => decide (u ≠ t))) := by
  by_cases ho : o' = o
  · right
    subst ho
    simp only [deleteOriginPair] at h
    by_cases he : _isEmptyOrigin (mapVal O o' (fun b => b.filter (fun u => decide (u ≠ t)))) o'
        = true
    · rw [if_pos he, alookup_aerase_self] at h
      exact Option.noConfusion h
    · rw [if_neg he, alookup_mapVal_self] at h
      rcases hl : alookup O o' with _ | b
      · rw [hl] at h
        exact Option.noConfusion h
      · rw [hl] at h
        simp only [Option.map_some'] at h
        injection h with h2
        refine ⟨rfl, ?_, b, rfl, h2.symm⟩
        intro hnil
        apply he
        rw [_isEmptyOrigin_iff]
        right
        rw [alookup_mapVal_self, hl]
        simp only [Option.map_some']
        rw [h2, hnil]
  · left
    exact ⟨ho, by rwa [alookup_deleteOriginPair_of_ne _ _ ho] at h⟩

theorem akeys_nodup_deleteOriginPair {O : List (String × List ApprovalType)} (o : String)
    (t : ApprovalType) (hn : (akeys O).Nodup) : (akeys (deleteOriginPair O o t)).Nodup := by
  simp only [deleteOriginPair]
  by_cases he : _isEmptyOrigin (mapVal O o (fun b => b.filter (fun u => decide (u ≠ t)))) o = true
  · rw [if_pos he]
    apply akeys_nodup_aerase
    rw [akeys_mapVal]
    exact hn
  · rw [if_neg he]
    rw [show akeys (mapVal O o (fun b => b.filter (fun u => decide (u ≠ t)))) = akeys O
      from akeys_mapVal _ _ _]
    exact hn

theorem wf_deleteState {s : State} {id : String} {info : ApprovalInfo} (hw : WF s)
    (hS : alookup s.store id = some info) : WF (deleteState s id info) := by
  have hmemS : (id, info) ∈ s.store := mem_of_alookup_eq_some hS
  constructor
  · exact akeys_nodup_aerase id hw.nodupA
  · exact akeys_nodup_aerase id hw.nodupS
  · exact akeys_nodup_deleteOriginPair _ _ hw.nodupO
  · intro o' b' hb'
    rcases deleteOriginPair_cases hb' with ⟨_, hl⟩ | ⟨_, _, b, hl, hfil⟩
    · exact hw.nodupB o' b' hl
    · rw [hfil]
      exact List.Nodup.filter _ (hw.nodupB _ b hl)
  · intro o' b' hb'
    rcases deleteOriginPair_cases hb' with ⟨_, hl⟩ | ⟨_, hne, _⟩
    · exact hw.noEmptyB o' b' hl
    · exact hne
  · intro id'
    by_cases hi : id' = id
    · subst hi
      show (alookup (aerase s.approvals id') id').isSome =
        (alookup (aerase s.store id') id').isSome
      rw [alookup_aerase_self, alookup_aerase_self]
      rfl
    · show (alookup (aerase s.approvals id) id').isSome =
        (alookup (aerase s.store id) id').isSome
      rw [alookup_aerase_of_ne _ hi, alookup_aerase_of_ne _ hi]
      exact hw.sync id'
  · intro o' t'
    show hasPair (deleteOriginPair s.origins info.origin (storeType info)) o' t' = true ↔
      ∃ p ∈ aerase s.store id, p.2.origin = o' ∧ storeType p.2 = t'
    rw [hasPair_deleteOriginPair]
    constructor
    · rintro ⟨hp0, hne⟩
      obtain ⟨p, hpmem, hpo, hpt⟩ := (hw.index o' t').mp hp0
      refine ⟨p, mem_aerase.mpr ⟨hpmem, ?_⟩, hpo, hpt⟩
      intro hpi
      have hpe : p = (id, info) :=
        entry_eq_of_mem_nodup hw.nodupS hpmem hmemS hpi
      apply hne
      subst hpe
      exact ⟨hpo.symm, hpt.symm⟩
    · rintro ⟨p, hpmem, hpo, hpt⟩
      obtain ⟨hpmem0, hpi⟩ := mem_aerase.mp hpmem
      refine ⟨(hw.index o' t').mpr ⟨p, hpmem0, hpo, hpt⟩, ?_⟩
      rintro ⟨ho, ht⟩
      apply hpi
      exact hw.uniq p hpmem0 (id, info) hmemS (by rw [hpo, ho]) (by rw [hpt, ht])
  · intro p hpmem q hqmem
    exact hw.uniq p (mem_aerase.mp hpmem).1 q (mem_aerase.mp hqmem).1
  · intro p hpmem
    exact hw.noFalsyId p (mem_aerase.mp hpmem).1

/-! Characterisation of resolve, reject and clear. -/

theorem resolve_notfound {s : State} {id : String} (v : JsValue)
    (hA : alookup s.approvals id = none) :
    resolve s id v =
      (s, Except.error (JsError.error ("Approval with id " ++ quoted id ++ " not found."))) := by
  unfold resolve _deleteApprovalAndGetCallbacks
  rw [hA]

theorem reject_notfound {s : State} {id : String} (e : JsValue)
    (hA : alookup s.approvals id = none) :
    reject s id e =
      (s, Except.error (JsError.error ("Approval with id " ++ quoted id ++ " not found."))) := by
  unfold reject _deleteApprovalAndGetCallbacks
  rw [hA]

theorem resolve_ok {s : State} {id : String} {h : Nat} (v : JsValue) (hw : WF s)
    (hA : alookup s.approvals id = some h) :
    ∃ info, alookup s.store id = some info ∧
      resolve s id v = (deleteState s id info, Except.ok (h, Outcome.resolved v)) := by
  have hid : ¬ id = "" := hw.noFalsyId (id, h) (mem_of_alookup_eq_some hA)
  have hAs : (alookup s.approvals id).isSome = true := by rw [hA]; rfl
  have hSs : (alookup s.store id).isSome = true := by rw [← hw.sync]; exact hAs
  rcases hS : alookup s.store id with _ | info
  · rw [hS] at hSs
    exact absurd hSs (by simp)
  refine ⟨info, rfl, ?_⟩
  unfold resolve _deleteApprovalAndGetCallbacks
  rw [hA, _delete_live hid hAs hS]

theorem reject_ok {s : State} {id : String} {h : Nat} (e : JsValue) (hw : WF s)
    (hA : alookup s.approvals id = some h) :
    ∃ info, alookup s.store id = some info ∧
      reject s id e = (deleteState s id info, Except.ok (h, Outcome.rejected e)) := by
  have hid : ¬ id = "" := hw.noFalsyId (id, h) (mem_of_alookup_eq_some hA)
  have hAs : (alookup s.approvals id).isSome = true := by rw [hA]; rfl
  have hSs : (alookup s.store id).isSome = true := by rw [← hw.sync]; exact hAs
  rcases hS : alookup s.store id with _ | info
  · rw [hS] at hSs
    exact absurd hSs (by simp)
  refine ⟨info, rfl, ?_⟩
  unfold reject _deleteApprovalAndGetCallbacks
  rw [hA, _delete_live hid hAs hS]

theorem wf_resolve (s : State) (id : String) (v : JsValue) (hw : WF s) :
    WF (resolve s id v).1 := by
  rcases hA : alookup s.approvals id with _ | h
  · rw [resolve_notfound v hA]
    exact hw
  · obtain ⟨info, hS, hres⟩ := resolve_ok v hw hA
    rw [hres]
    exact wf_deleteState hw hS

theorem wf_reject (s : State) (id : String) (e : JsValue) (hw : WF s) :
    WF (reject s id e).1 := by
  rcases hA : alookup s.approvals id with _ | h
  · rw [reject_notfound e hA]
    exact hw
  · obtain ⟨info, hS, hres⟩ := reject_ok e hw hA
    rw [hres]
    exact wf_deleteState hw hS

theorem clearLoop_drain :
    ∀ (apprs : List (String × Nat)) (s : State), WF s → s.approvals = apprs →
      ∃ s', clearLoop s (akeys apprs) =
          (s', Except.ok (apprs.map (fun p => (p.2, Outcome.rejected JsValue.undef)))) ∧
        s'.approvals = [] ∧ WF s' := by
  intro apprs
  induction apprs with
  | nil =>
    intro s hw he
    exact ⟨s, rfl, he, hw⟩
  | cons p rest ih =>
    intro s hw he
    obtain ⟨id, h⟩ := p
    have hA : alookup s.approvals id = some h := by
      rw [he]
      simp [alookup]
    obtain ⟨info, hSinfo, hres⟩ := reject_ok JsValue.undef hw hA
    have hndA := hw.nodupA
    rw [he] at hndA
    simp only [akeys, List.map_cons, List.nodup_cons] at hndA
    have hs1A : (deleteState s id info).approvals = rest := by
      show aerase s.approvals id = rest
      rw [he, aerase_cons_self]
      exact aerase_of_not_mem hndA.1
    have hw1 : WF (deleteState s id info) := wf_deleteState hw hSinfo
    obtain ⟨s', hloop, hs'A, hw'⟩ := ih (deleteState s id info) hw1 hs1A
    refine ⟨s', ?_, hs'A, hw'⟩
    show clearLoop s (id :: akeys rest) = _
    simp only [clearLoop]
    rw [hres]
    dsimp only
    rw [hloop]
    rfl

/-- The full effect of clear on a consistent state: every pending handle
is rejected with undefined, in registration order, and all three
structures end up empty. -/
theorem clear_spec (s : State) (hw : WF s) :
    (clear s).1.approvals = [] ∧ (clear s).1.origins = [] ∧ (clear s).1.store = [] ∧
      (clear s).2 =
        Except.ok (s.approvals.map (fun p => (p.2, Outcome.rejected JsValue.undef))) := by
  obtain ⟨s', hloop, hs'A, _⟩ := clearLoop_drain s.approvals s hw rfl
  unfold clear
  rw [hloop]
  exact ⟨hs'A, rfl, rfl, rfl⟩

theorem wf_empty {s : State} (hA : s.approvals = []) (hO : s.origins = [])
    (hS : s.store = []) : WF s := by
  refine ⟨?_, ?_, ?_, ?_, ?_, ?_, ?_, ?_, ?_⟩ <;>
    simp [hA, hO, hS, akeys, alookup, hasPair]

theorem wf_clear (s : State) (hw : WF s) : WF (clear s).1 := by
  obtain ⟨h1, h2, h3, _⟩ := clear_spec s hw
  exact wf_empty h1 h2 h3

/-- Every reachable state satisfies the consistency invariant. -/
theorem reachable_wf {s : State} (h : Reachable s) : WF s := by
  induction h with
  | init => exact wf_init
  | step_add s idArg originArg typeArg rd genId hs ih =>
    exact wf_add s idArg originArg typeArg rd genId ih
  | step_resolve s id v hs ih => exact wf_resolve s id v ih
  | step_reject s id e hs ih => exact wf_reject s id e ih
  | step_clear s hs ih => exact wf_clear s ih

theorem length_filter_le_one {α : Type} (l : List (String × α)) (P : String × α → Bool)
    (hnd : (akeys l).Nodup)
    (huniq : ∀ p ∈ l, ∀ q ∈ l, P p = true → P q = true → p.1 = q.1) :
    (l.filter P).length ≤ 1 := by
  induction l with
  | nil => simp
  | cons a rest ih =>
    simp only [akeys, List.map_cons, List.nodup_cons] at hnd
    by_cases hPa : P a = true
    · rw [List.filter_cons_of_pos hPa]
      have hrest : rest.filter P = [] := by
        rcases hfil : rest.filter P with _ | ⟨b, tl⟩
        · rfl
        · exfalso
          have hb : b ∈ rest.filter P := by
            rw [hfil]
            exact List.mem_cons_self _ _
          have hbmem := (List.mem_filter.mp hb).1
          have hbP := (List.mem_filter.mp hb).2
          have hkey := huniq a (List.mem_cons_self _ _) b (List.mem_cons_of_mem _ hbmem)
            hPa hbP
          apply hnd.1
          rw [hkey]
          exact List.mem_map.mpr ⟨b, hbmem, rfl⟩
      rw [hrest]
      simp
    · rw [List.filter_cons_of_neg (by simpa using hPa)]
      exact ih hnd.2
        (fun p hp q hq => huniq p (List.mem_cons_of_mem _ hp) q (List.mem_cons_of_mem _ hq))

theorem countPending_le_one (s : State) (hw : WF s) (o : String) (t : ApprovalType) :
    countPending s o t ≤ 1 := by
  apply length_filter_le_one _ _ hw.nodupS
  intro p hp q hq hPp hPq
  simp only [Bool.and_eq_true, decide_eq_true_eq] at hPp hPq
  exact hw.uniq p hp q hq (hPp.1.trans hPq.1.symm) (hPp.2.trans hPq.2.symm)

theorem bool_eq_of_iff {a b : Bool} (h : a = true ↔ b = true) : a = b := by
  cases a <;> cases b <;> simp_all

theorem alookup_addToStore_self (store : List (String × ApprovalInfo)) (id origin : String)
    (type : ApprovalType) (rd : Option JsValue) :
    alookup (_addToStore store id origin type rd) id = some (buildInfo id origin type rd) := by
  unfold _addToStore
  exact alookup_aset_self _ _ _

/-! Settlement of the specification claims. -/

/-- C1: in every reachable state at most one pending approval exists per
(origin, type) pair, and an otherwise-valid add for a pair that is
already pending fails with the resource-unavailable collision error and
returns the registry state exactly as it was. -/
theorem c1_origin_type_exclusivity (s : State) (hs : Reachable s)
    (idArg originArg typeArg : Option String) (rd : Option JsValue) (genId : String)
    (hval : _validateAddParams s (idArg.getD genId) originArg (resolveType typeArg) rd = none)
    (hpend : hasPair s.origins (originArg.getD "") (resolveType typeArg) = true) :
    (∀ o t, countPending s o t ≤ 1) ∧
      add s idArg originArg typeArg rd genId =
        (s, Except.error (JsError.resourceUnavailable
          (getAlreadyPendingMessage (originArg.getD "") (resolveType typeArg)))) := by
  refine ⟨fun o t => countPending_le_one s (reachable_wf hs) o t, ?_⟩
  show _add s idArg originArg typeArg rd genId = _
  exact _add_error_collision hval hpend

/-- C1 witness: a second default-type add for origin bar.baz collides. -/
theorem c1_witness :
    _validateAddParams (_add initState (some "foo") (some "bar.baz") none none "g").1
        "foo2" (some "bar.baz") (resolveType none) none = none ∧
    hasPair (_add initState (some "foo") (some "bar.baz") none none "g").1.origins
        "bar.baz" (resolveType none) = true ∧
    add (_add initState (some "foo") (some "bar.baz") none none "g").1
        (some "foo2") (some "bar.baz") none none "g" =
      ((_add initState (some "foo") (some "bar.baz") none none "g").1,
        Except.error (JsError.resourceUnavailable
          "Request already pending for origin bar.baz. Please wait.")) :=
  ⟨rfl, rfl,
    (c1_origin_type_exclusivity _
      (Reachable.step_add initState (some "foo") (some "bar.baz") none none "g" Reachable.init)
      (some "foo2") (some "bar.baz") none none "g" rfl rfl).2⟩

/-- C2: every reachable state is consistent: the origin index holds an
(origin, type) pair exactly when a projection entry with that origin and
type and a matching primary-map entry exists, the projection and the
primary map register the same ids, and no origin key with an empty
type-set remains in the index. -/
theorem c2_state_consistency (s : State) (hs : Reachable s) :
    (∀ o t, hasPair s.origins o t = true ↔
      ∃ p ∈ s.store, p.2.origin = o ∧ storeType p.2 = t ∧
        (alookup s.approvals p.1).isSome = true) ∧
    (∀ id, (alookup s.store id).isSome = (alookup s.approvals id).isSome) ∧
    (∀ o b, alookup s.origins o = some b → b ≠ []) := by
  have hw := reachable_wf hs
  refine ⟨?_, fun id => (hw.sync id).symm, hw.noEmptyB⟩
  intro o t
  rw [hw.index o t]
  constructor
  · rintro ⟨p, hp, h1, h2⟩
    refine ⟨p, hp, h1, h2, ?_⟩
    rw [hw.sync, alookup_isSome_iff]
    exact List.mem_map.mpr ⟨p, hp, rfl⟩
  · rintro ⟨p, hp, h1, h2, _⟩
    exact ⟨p, hp, h1, h2⟩

/-- C2 witness: after one add, projection and primary map agree on the
added id. -/
theorem c2_witness :
    (alookup (_add initState (some "foo") (some "bar.baz") none none "g").1.store "foo").isSome
      = (alookup (_add initState (some "foo") (some "bar.baz") none none "g").1.approvals
          "foo").isSome :=
  (c2_state_consistency _
    (Reachable.step_add initState (some "foo") (some "bar.baz") none none "g"
      Reachable.init)).2.1 "foo"

/-- C3: add is atomic: every error returns the registry state untouched,
and on success the id is registered in the primary map, the (origin,
type) pair is in the origin index, and the projection holds the id. -/
theorem c3_add_atomicity (s : State) (idArg originArg typeArg : Option String)
    (rd : Option JsValue) (genId : String) :
    (∀ e, (add s idArg originArg typeArg rd genId).2 = Except.error e →
      (add s idArg originArg typeArg rd genId).1 = s) ∧
    (∀ h, (add s idArg originArg typeArg rd genId).2 = Except.ok h →
      (alookup (add s idArg originArg typeArg rd genId).1.approvals
        (idArg.getD genId)).isSome = true ∧
      hasPair (add s idArg originArg typeArg rd genId).1.origins (originArg.getD "")
        (resolveType typeArg) = true ∧
      (alookup (add s idArg originArg typeArg rd genId).1.store
        (idArg.getD genId)).isSome = true) := by
  simp only [add]
  rcases hv : _validateAddParams s (idArg.getD genId) originArg (resolveType typeArg) rd
    with _ | msg
  case some =>
    rw [_add_error_validate hv]
    exact ⟨fun e _ => rfl, fun h hok => Except.noConfusion hok⟩
  case none =>
  by_cases hp : hasPair s.origins (originArg.getD "") (resolveType typeArg) = true
  · rw [_add_error_collision hv hp]
    exact ⟨fun e _ => rfl, fun h hok => Except.noConfusion hok⟩
  · rw [_add_success hv hp]
    dsimp only
    refine ⟨fun e he => Except.noConfusion he, fun h _ => ⟨?_, ?_, ?_⟩⟩
    · rw [alookup_aset_self]
      rfl
    · rw [hasPair_iff]
      exact ⟨_, alookup_addPair_self _ _ _, mem_bucketAdd.mpr (Or.inr rfl)⟩
    · rw [alookup_addToStore_self]
      rfl

/-- C3 witness: a falsy-id add leaves the fresh state unchanged, and a
valid add registers the id in the projection. -/
theorem c3_witness :
    (add initState (some "") (some "bar.baz") none none "g").1 = initState ∧
    (alookup (add initState (some "foo") (some "bar.baz") none none "g").1.store
      "foo").isSome = true :=
  ⟨(c3_add_atomicity initState (some "") (some "bar.baz") none none "g").1
      (JsError.internal "May not specify falsy id.") rfl,
    ((c3_add_atomicity initState (some "foo") (some "bar.baz") none none "g").2 0 rfl).2.2⟩

/-- C4: the projection snapshot published for add({id: foo, origin:
bar.baz}) is {id: foo, origin: bar.baz} — against the claim (and the
controller's own strict deepEqual tests and ApprovalInfo typedef, which
both expect exactly {origin: bar.baz}), the snapshot carries the id
field; type and requestData are correctly omitted. -/
theorem c4_projection_contains_id :
    get (add initState (some "foo") (some "bar.baz") none none "g").1 "foo" =
      some { id := "foo", origin := "bar.baz", type := none, requestData := none } ∧
    (get (add initState (some "foo") (some "bar.baz") none none "g").1 "foo").map
      ApprovalInfo.id = some "foo" :=
  ⟨rfl, rfl⟩

/-- C5 counterexample: with the id omitted, two runs that differ only in
the freshly generated id return identical values — the bare settlement
handle — so the generated id is not returned to the caller. -/
theorem c5_counterexample :
    (add initState none (some "bar.baz") none none "generatedA").2 =
      (add initState none (some "bar.baz") none none "generatedB").2 ∧
    (add initState none (some "bar.baz") none none "generatedA").2 = Except.ok 0 :=
  ⟨rfl, rfl⟩

/-- C5 (amended): on success add returns only the pending settlement
handle; the id — generated or caller-supplied — is not part of the return
value, but it is recorded in the projection entry published for the id. -/
theorem c5_add_returns_handle_only (s : State) (idArg originArg typeArg : Option String)
    (rd : Option JsValue) (genId : String) (k : Nat)
    (hok : (add s idArg originArg typeArg rd genId).2 = Except.ok k) :
    k = s.nextHandle ∧
      (alookup (add s idArg originArg typeArg rd genId).1.store (idArg.getD genId)).map
        ApprovalInfo.id = some (idArg.getD genId) := by
  simp only [add] at hok ⊢
  rcases hv : _validateAddParams s (idArg.getD genId) originArg (resolveType typeArg) rd
    with _ | msg
  case some =>
    rw [_add_error_validate hv] at hok
    exact Except.noConfusion hok
  case none =>
  by_cases hp : hasPair s.origins (originArg.getD "") (resolveType typeArg) = true
  · rw [_add_error_collision hv hp] at hok
    exact Except.noConfusion hok
  · rw [_add_success hv hp] at hok
    rw [_add_success hv hp]
    dsimp only at hok ⊢
    refine ⟨(Except.ok.inj hok).symm, ?_⟩
    rw [alookup_addToStore_self]
    rfl

/-- C5 witness: a generated-id add returns handle 0 only, and the
projection records the generated id. -/
theorem c5_witness :
    (add initState none (some "bar.baz") none none "gen").2 = Except.ok 0 ∧
      (alookup (add initState none (some "bar.baz") none none "gen").1.store "gen").map
        ApprovalInfo.id = some "gen" :=
  ⟨rfl, (c5_add_returns_handle_only initState none (some "bar.baz") none none "gen" 0 rfl).2⟩

/-- C6: resolve and reject on an id that is not pending throw the
not-found error and return the registry state exactly as it was, with
zero deletions. -/
theorem c6_notfound (s : State) (id : String) (v e : JsValue)
    (h : alookup s.approvals id = none) :
    resolve s id v =
        (s, Except.error (JsError.error ("Approval with id " ++ quoted id ++ " not found.")))
      ∧
    reject s id e =
        (s, Except.error (JsError.error ("Approval with id " ++ quoted id ++ " not found.")))
      :=
  ⟨resolve_notfound v h, reject_notfound e h⟩

/-- C6 witness: resolving or rejecting on a fresh registry throws
not-found and changes nothing. -/
theorem c6_witness :
    resolve initState "foo" JsValue.undef =
        (initState,
          Except.error (JsError.error ("Approval with id " ++ quoted "foo" ++ " not found.")))
      ∧
    reject initState "foo" JsValue.undef =
        (initState,
          Except.error (JsError.error ("Approval with id " ++ quoted "foo" ++ " not found.")))
      :=
  c6_notfound initState "foo" JsValue.undef JsValue.undef rfl

/-- C7 counterexample: requestData 0 is provided and is a primitive — not
a plain object — yet add succeeds: a falsy requestData passes validation
and is simply omitted from the projection snapshot. -/
theorem c7_counterexample :
    (add initState (some "foo") (some "bar.baz") none (some (JsValue.num 0)) "g").2 =
      Except.ok 0 ∧
    (get (add initState (some "foo") (some "bar.baz") none (some (JsValue.num 0)) "g").1
      "foo").map ApprovalInfo.requestData = some none :=
  ⟨rfl, rfl⟩

/-- C7 (amended): an explicitly falsy id is an error; a missing or falsy
origin is an error for any non-falsy id; an explicitly falsy type is an
error once id and origin pass and the id is fresh, while an omitted type
resolves to the default sentinel; a provided and truthy requestData that
is not a plain object (an array, or a truthy primitive) is an error; a
provided falsy requestData is accepted and validated exactly like an
absent one. -/
theorem c7_add_validation (s : State) (idArg originArg typeArg : Option String)
    (rd : Option JsValue) (genId : String) :
    (add s (some "") originArg typeArg rd genId).2 =
        Except.error (JsError.internal "May not specify falsy id.") ∧
    (idArg.getD genId ≠ "" → truthyStr originArg = false →
      (add s idArg originArg typeArg rd genId).2 =
        Except.error (JsError.internal "Must specify origin.")) ∧
    (idArg.getD genId ≠ "" → truthyStr originArg = true →
      alookup s.approvals (idArg.getD genId) = none →
      (add s idArg originArg (some "") rd genId).2 =
        Except.error (JsError.internal "May not specify falsy type.")) ∧
    resolveType none = ApprovalType.default ∧
    (∀ rdv : JsValue, idArg.getD genId ≠ "" → truthyStr originArg = true →
      alookup s.approvals (idArg.getD genId) = none →
      falsyType (resolveType typeArg) = false →
      rdv.truthy = true → (rdv.typeofObject = false ∨ rdv.isArray = true) →
      (add s idArg originArg typeArg (some rdv) genId).2 =
        Except.error (JsError.internal "Request data must be a plain object if specified.")) ∧
    (∀ rdv : JsValue, rdv.truthy = false →
      _validateAddParams s (idArg.getD genId) originArg (resolveType typeArg) (some rdv) =
        _validateAddParams s (idArg.getD genId) originArg (resolveType typeArg) none) := by
  refine ⟨?_, ?_, ?_, rfl, ?_, ?_⟩
  · have hv : _validateAddParams s ((some "").getD genId) originArg (resolveType typeArg) rd =
        some "May not specify falsy id." := by
      unfold _validateAddParams
      rw [if_pos (show (some "").getD genId = "" from rfl)]
    simp only [add]
    rw [_add_error_validate hv]
  · intro hid horig
    have hv : _validateAddParams s (idArg.getD genId) originArg (resolveType typeArg) rd =
        some "Must specify origin." := by
      unfold _validateAddParams
      rw [if_neg hid, if_pos horig]
    simp only [add]
    rw [_add_error_validate hv]
  · intro hid horig hfree
    have hv : _validateAddParams s (idArg.getD genId) originArg (resolveType (some "")) rd =
        some "May not specify falsy type." := by
      unfold _validateAddParams
      rw [if_neg hid]
      rw [if_neg (show ¬ (truthyStr originArg = false) by rw [horig]; simp)]
      rw [if_neg (show ¬ ((alookup s.approvals (idArg.getD genId)).isSome = true) by
        rw [hfree]; simp)]
      rw [if_pos (show falsyType (resolveType (some "")) = true from rfl)]
    simp only [add]
    rw [_add_error_validate hv]
  · intro rdv hid horig hfree htype htruthy hobj
    have hv : _validateAddParams s (idArg.getD genId) originArg (resolveType typeArg)
        (some rdv) = some "Request data must be a plain object if specified." := by
      unfold _validateAddParams
      rw [if_neg hid]
      rw [if_neg (show ¬ (truthyStr originArg = false) by rw [horig]; simp)]
      rw [if_neg (show ¬ ((alookup s.approvals (idArg.getD genId)).isSome = true) by
        rw [hfree]; simp)]
      rw [if_neg (show ¬ (falsyType (resolveType typeArg) = true) by rw [htype]; simp)]
      have hcond : (rdv.truthy && (!rdv.typeofObject || rdv.isArray)) = true := by
        rw [htruthy]
        rcases hobj with hobj | hobj
        · rw [hobj]
          simp
        · rw [hobj]
          simp
      dsimp only
      rw [if_pos hcond]
    simp only [add]
    rw [_add_error_validate hv]
  · intro rdv hrdv
    unfold _validateAddParams
    by_cases h1 : idArg.getD genId = ""
    · rw [if_pos h1, if_pos h1]
    rw [if_neg h1, if_neg h1]
    by_cases h2 : truthyStr originArg = false
    · rw [if_pos h2, if_pos h2]
    rw [if_neg h2, if_neg h2]
    by_cases h3 : (alookup s.approvals (idArg.getD genId)).isSome = true
    · rw [if_pos h3, if_pos h3]
    rw [if_neg h3, if_neg h3]
    by_cases h4 : falsyType (resolveType typeArg) = true
    · rw [if_pos h4, if_pos h4]
    rw [if_neg h4, if_neg h4]
    dsimp only
    rw [hrdv]
    simp

/-- C7 witness: each validation branch on concrete inputs. -/
theorem c7_witness :
    (add initState (some "foo") none none none "g").2 =
        Except.error (JsError.internal "Must specify origin.") ∧
    (add initState (some "foo") (some "bar.baz") (some "") none "g").2 =
        Except.error (JsError.internal "May not specify falsy type.") ∧
    (add initState (some "foo") (some "bar.baz") none (some (JsValue.str "x")) "g").2 =
        Except.error (JsError.internal "Request data must be a plain object if specified.") ∧
    _validateAddParams initState "foo" (some "bar.baz") (resolveType none)
        (some (JsValue.bool false)) =
      _validateAddParams initState "foo" (some "bar.baz") (resolveType none) none :=
  ⟨(c7_add_validation initState (some "foo") none none none "g").2.1 (by decide) rfl,
    (c7_add_validation initState (some "foo") (some "bar.baz") none none "g").2.2.1
      (by decide) rfl rfl,
    (c7_add_validation initState (some "foo") (some "bar.baz") none none "g").2.2.2.2.1
      (JsValue.str "x") (by decide) rfl rfl rfl rfl (Or.inl rfl),
    (c7_add_validation initState (some "foo") (some "bar.baz") none none "g").2.2.2.2.2
      (JsValue.bool false) rfl⟩

/-- C8: on any reachable state clear does not throw; it rejects every
pending settlement handle (with an unspecified value) in registration
order — zero rejections on an empty registry — and afterwards the
primary map, the origin index and the projection are all empty. -/
theorem c8_clear_drains (s : State) (hs : Reachable s) :
    (clear s).1.approvals = [] ∧ (clear s).1.origins = [] ∧ (clear s).1.store = [] ∧
      (clear s).2 =
        Except.ok (s.approvals.map (fun p => (p.2, Outcome.rejected JsValue.undef))) :=
  clear_spec s (reachable_wf hs)

/-- C8 witness: clear on the empty registry performs zero rejections;
clear after one add rejects exactly that handle and empties the store. -/
theorem c8_witness :
    (clear initState).2 = Except.ok [] ∧
    (clear (_add initState (some "foo") (some "bar.baz") none none "g").1).2 =
      Except.ok [(0, Outcome.rejected JsValue.undef)] ∧
    (clear (_add initState (some "foo") (some "bar.baz") none none "g").1).1.store = [] :=
  ⟨(c8_clear_drains initState Reachable.init).2.2.2,
    (c8_clear_drains _
      (Reachable.step_add initState (some "foo") (some "bar.baz") none none "g"
        Reachable.init)).2.2.2,
    (c8_clear_drains _
      (Reachable.step_add initState (some "foo") (some "bar.baz") none none "g"
        Reachable.init)).2.2.1⟩

/-- C9: deletion is frame-local: resolving one pending approval removes
exactly its own id from the primary map and the projection and exactly
its own (origin, type) pair from the origin index, leaving every other
id and every other pair untouched; concretely, after adding foo (origin
bar.baz, default type) and fizz (origin bar.baz, type myType), deleting
fizz leaves has by id foo and has by origin bar.baz true, while has by
id fizz and has by (bar.baz, myType) become false. -/
theorem c9_delete_frame_local (s : State) (hs : Reachable s) (id : String)
    (info : ApprovalInfo) (v : JsValue) (hst : alookup s.store id = some info) :
    (alookup (resolve s id v).1.approvals id = none ∧
      alookup (resolve s id v).1.store id = none ∧
      hasPair (resolve s id v).1.origins info.origin (storeType info) = false) ∧
    (∀ id2, id2 ≠ id →
      alookup (resolve s id v).1.approvals id2 = alookup s.approvals id2 ∧
      alookup (resolve s id v).1.store id2 = alookup s.store id2) ∧
    (∀ o t, ¬ (o = info.origin ∧ t = storeType info) →
      hasPair (resolve s id v).1.origins o t = hasPair s.origins o t) ∧
    (has (_delete (_add (_add initState (some "foo") (some "bar.baz") none none "g").1
          (some "fizz") (some "bar.baz") (some "myType") none "g").1 "fizz").1
        (some "foo") none none = Except.ok true ∧
      has (_delete (_add (_add initState (some "foo") (some "bar.baz") none none "g").1
          (some "fizz") (some "bar.baz") (some "myType") none "g").1 "fizz").1
        none (some "bar.baz") none = Except.ok true ∧
      has (_delete (_add (_add initState (some "foo") (some "bar.baz") none none "g").1
          (some "fizz") (some "bar.baz") (some "myType") none "g").1 "fizz").1
        (some "fizz") none none = Except.ok false ∧
      has (_delete (_add (_add initState (some "foo") (some "bar.baz") none none "g").1
          (some "fizz") (some "bar.baz") (some "myType") none "g").1 "fizz").1
        none (some "bar.baz") (some "myType") = Except.ok false) := by
  have hw := reachable_wf hs
  have hSs : (alookup s.store id).isSome = true := by rw [hst]; rfl
  have hAs : (alookup s.approvals id).isSome = true := by rw [hw.sync]; exact hSs
  rcases hA : alookup s.approvals id with _ | h
  · rw [hA] at hAs
    exact absurd hAs (by simp)
  obtain ⟨info2, hS2, hres⟩ := resolve_ok v hw hA
  rw [hst] at hS2
  injection hS2 with hinfo
  subst hinfo
  have hdel : (resolve s id v).1 = deleteState s id info := by rw [hres]
  refine ⟨⟨?_, ?_, ?_⟩, ?_, ?_, rfl, rfl, rfl, rfl⟩
  · rw [hdel]
    show alookup (aerase s.approvals id) id = none
    exact alookup_aerase_self _ _
  · rw [hdel]
    show alookup (aerase s.store id) id = none
    exact alookup_aerase_self _ _
  · rw [hdel]
    show hasPair (deleteOriginPair s.origins info.origin (storeType info)) info.origin
      (storeType info) = false
    rcases hb : hasPair (deleteOriginPair s.origins info.origin (storeType info)) info.origin
        (storeType info) with _ | _
    · rfl
    · obtain ⟨_, hne⟩ := (hasPair_deleteOriginPair _ _ _ _ _).mp hb
      exact absurd ⟨rfl, rfl⟩ hne
  · intro id2 hne
    rw [hdel]
    constructor
    · show alookup (aerase s.approvals id) id2 = alookup s.approvals id2
      exact alookup_aerase_of_ne _ hne
    · show alookup (aerase s.store id) id2 = alookup s.store id2
      exact alookup_aerase_of_ne _ hne
  · intro o t hno
    rw [hdel]
    show hasPair (deleteOriginPair s.origins info.origin (storeType info)) o t =
      hasPair s.origins o t
    apply bool_eq_of_iff
    rw [hasPair_deleteOriginPair]
    constructor
    · rintro ⟨hx, _⟩
      exact hx
    · intro hx
      exact ⟨hx, hno⟩

/-- C9 witness: deleting fizz via resolve removes its own primary-map
entry and leaves the sibling foo entry untouched. -/
theorem c9_witness :
    alookup (resolve (_add (_add initState (some "foo") (some "bar.baz") none none "g").1
        (some "fizz") (some "bar.baz") (some "myType") none "g").1 "fizz"
        JsValue.undef).1.approvals "fizz" = none ∧
    alookup (resolve (_add (_add initState (some "foo") (some "bar.baz") none none "g").1
        (some "fizz") (some "bar.baz") (some "myType") none "g").1 "fizz"
        JsValue.undef).1.approvals "foo" =
      alookup (_add (_add initState (some "foo") (some "bar.baz") none none "g").1
        (some "fizz") (some "bar.baz") (some "myType") none "g").1.approvals "foo" :=
  ⟨(c9_delete_frame_local _
      (Reachable.step_add _ (some "fizz") (some "bar.baz") (some "myType") none "g"
        (Reachable.step_add initState (some "foo") (some "bar.baz") none none "g"
          Reachable.init))
      "fizz" { id := "fizz", origin := "bar.baz", type := some "myType", requestData := none }
      JsValue.undef rfl).1.1,
    ((c9_delete_frame_local _
      (Reachable.step_add _ (some "fizz") (some "bar.baz") (some "myType") none "g"
        (Reachable.step_add initState (some "foo") (some "bar.baz") none none "g"
          Reachable.init))
      "fizz" { id := "fizz", origin := "bar.baz", type := some "myType", requestData := none }
      JsValue.undef rfl).2.1 "foo" (by decide)).1⟩

/-- C10: _delete called with a truthy id that is not pending does not
throw and changes nothing; it throws (before touching anything) exactly
when the id is falsy. -/
theorem c10_delete_unknown_noop (s : State) (id : String) :
    (id ≠ "" → alookup s.approvals id = none → _delete s id = (s, Except.ok ())) ∧
    _delete s "" = (s, Except.error (JsError.error "Expected id to be specified.")) :=
  ⟨fun hid hA => _delete_missing hid hA, _delete_falsy s⟩

/-- C10 witness: deleting the unknown id fizz after adding foo is a
no-op. -/
theorem c10_witness :
    _delete (_add initState (some "foo") (some "bar.baz") none none "g").1 "fizz" =
      ((_add initState (some "foo") (some "bar.baz") none none "g").1, Except.ok ()) :=
  (c10_delete_unknown_noop _ "fizz").1 (by decide) rfl

end ApprovalController
